import Mathlib

/-!
Shallow embedding of the memo record store (`src-tauri/src/main.rs`) and the
Things 3 export module (`src-tauri/src/things3.rs`).

The persisted `memos` table is modelled as a list of rows in insertion order.
SQL statements become list operations:
  - `SELECT ... ORDER BY name ASC` becomes a stable sort by `name`;
  - `WHERE name IN rarray(?1)` becomes a filter by list membership;
  - `DELETE` becomes a filter keeping the non-matching rows;
  - `UPDATE` becomes a pointwise map.
The Tauri commands `load`, `kill`, `merge`, `set_content` and `add_to_things`
are embedded as pure functions on this store state.  `add_to_things`
additionally records its observable effects (mutex acquire/release, database
select, process spawn) as an explicit event trace, reflecting the textual
order of the Rust function body together with the end-of-scope drop of the
`MutexGuard`.
-/

namespace Memos

/-- Embeds `struct Row { name: String, content: String, label: Option<String> }`. -/
structure Row where
  name : String
  content : String
  label : Option String
  deriving DecidableEq, Repr

/-- The `memos` table: a list of rows, in arbitrary (insertion) order. -/
abbrev Store := List Row

/-- Lexicographic comparison of character lists, the order SQLite's default
BINARY collation induces on TEXT values (bytewise comparison of UTF-8,
which coincides with lexicographic comparison of code points). -/
def charListLe : List Char → List Char → Bool
  | [], _ => true
  | _ :: _, [] => false
  | a :: as, b :: bs =>
    if a < b then true
    else if b < a then false
    else charListLe as bs

/-- Lexicographic comparison of strings via their character lists. -/
def strLe (a b : String) : Bool := charListLe a.data b.data

/-- Stable sort by `name` ascending, embedding SQL `ORDER BY name ASC`.
`strLe` agrees with the `String` linear order (`strLe_iff_le` below). -/
def sortByName (rows : List Row) : List Row :=
  List.insertionSort (fun a b => strLe a.name b.name = true) rows

instance {ε α : Type} [DecidableEq ε] [DecidableEq α] : DecidableEq (Except ε α) :=
  fun x y =>
    match x, y with
    | .ok a, .ok b =>
      if h : a = b then isTrue (congrArg Except.ok h)
      else isFalse (fun hc => h (Except.ok.inj hc))
    | .error e, .error f =>
      if h : e = f then isTrue (congrArg Except.error h)
      else isFalse (fun hc => h (Except.error.inj hc))
    | .ok _, .error _ => isFalse (fun hc => Except.noConfusion hc)
    | .error _, .ok _ => isFalse (fun hc => Except.noConfusion hc)

/-- Embeds `load`: `SELECT name, content, label FROM memos ORDER BY name ASC`. -/
def load (s : Store) : List Row :=
  sortByName s

/-- Embeds `kill`: `DELETE FROM memos WHERE name IN rarray(?1)`. -/
def kill (names : List String) (s : Store) : Store :=
  s.filter (fun r => !(names.contains r.name))

/-- Embeds the shared select of `merge` and `add_to_things`:
`SELECT name, content, label FROM memos WHERE name IN rarray(?1) ORDER BY name ASC`. -/
def selectByNames (names : List String) (s : Store) : List Row :=
  sortByName (s.filter (fun r => names.contains r.name))

/-- The SQLite error message surfaced when an INSERT collides on the key. -/
def dupErr : String := "UNIQUE constraint failed: memos.name"

/-- Embeds `INSERT INTO memos (name, content, label) VALUES (?1, ?2, ?3)`.
Modelled from the spec: the `memos` table schema (not part of the sources)
declares `name` as the primary/unique key, so inserting a duplicate name
fails with a constraint error. -/
def insertRow (r : Row) (s : Store) : Except String Store :=
  if s.any (fun q => q.name == r.name) then .error dupErr
  else .ok (s ++ [r])

/-- The combined row built by `merge` from the selected rows, transcribing the
three iterator chains: `join(",")` on the names, `join("\n\n")` on the
contents, and `filter_map(identity).filter(label != "unknown").next()
.unwrap_or("unknown")` on the labels. -/
def mergedRow (rows : List Row) : Row :=
  { name := String.intercalate "," (rows.map (fun r => r.name))
    content := String.intercalate "\n\n" (rows.map (fun r => r.content))
    label := some ((((rows.map (fun r => r.label)).filterMap id).filter
      (fun l => l != "unknown")).headD "unknown") }

/-- Embeds the `merge` command: return early when the name list has fewer
than 2 entries, otherwise select the matching rows ordered by name, delete
them, and insert the combined row. -/
def merge (names : List String) (s : Store) : Except String Store :=
  if names.length < 2 then .ok s
  else
    let rows := selectByNames names s
    insertRow (mergedRow rows) (kill names s)

/-- Embeds `set_content`: `UPDATE memos SET content = ?1 WHERE name = ?2`. -/
def set_content (name newContent : String) (s : Store) : Store :=
  s.map (fun r => if r.name = name then { r with content := newContent } else r)

/-- Embeds `things3::Todo`. -/
structure Todo where
  title : String
  notes : Option String
  deriving DecidableEq, Repr

/-- Embeds `things3::Item`, an enum with the single variant `Todo`. -/
inductive Item where
  | todo : Todo → Item
  deriving DecidableEq, Repr

/-- A JSON value, the target of the `serde_json` encoding.  Objects keep
their fields as an association list in construction order. -/
inductive Json where
  | null : Json
  | str : String → Json
  | arr : List Json → Json
  | obj : List (String × Json) → Json

/-- Embeds the derived `Serialize` for `Todo`: fields in declaration order,
with `None` notes encoded as JSON `null`. -/
def serializeTodo (t : Todo) : Json :=
  .obj [("title", .str t.title),
        ("notes", match t.notes with | some n => .str n | none => .null)]

/-- Embeds `impl Serialize for Item`: a `Todo` becomes the object
with a "type" field holding "to-do" and an "attributes" field holding the
serialized `Todo`. -/
def serializeItem : Item → Json
  | .todo t => .obj [("type", .str "to-do"), ("attributes", serializeTodo t)]

/-- Embeds `serde_json::to_string(&items)` at the JSON-value level: the
ordered array of serialized items. -/
def serializeItems (items : List Item) : Json :=
  .arr (items.map serializeItem)

/-- The `things:///json` URL dispatched by `add_to_things`, with its two
query parameters kept in decoded form (percent-encoding of the OS-level URL
string is abstracted away). -/
structure DispatchedUrl where
  base : String
  data : Json
  reveal : String

/-- Observable effects of `add_to_things`, in order of occurrence. -/
inductive Event where
  | lockAcquire : Event
  | dbSelect : List String → Event
  | lockRelease : Event
  | spawn : String → DispatchedUrl → Event

/-- Result of one `add_to_things` call: the store afterwards, the trace of
observable effects, and the returned value. -/
structure ExportResult where
  store : Store
  events : List Event
  result : Except String Unit

/-- The error returned when `/Applications/Things3.app` is absent. -/
def thingsInstalledErr : String := "Things is not installed"

/-- Embeds the `add_to_things` command.  `thingsInstalled` is the outcome of
the `Path::new("/Applications/Things3.app").exists()` probe.  On success the
trace follows the Rust body: the mutex is locked, the select runs, the `open`
process is spawned with the Things URL, and the `MutexGuard` is dropped only
at the end of the function scope, after the spawn. -/
def add_to_things (thingsInstalled : Bool) (names : List String) (s : Store) :
    ExportResult :=
  if !thingsInstalled then
    { store := s, events := [], result := .error thingsInstalledErr }
  else
    let rows := selectByNames names s
    let items : List Item := rows.map (fun r => .todo { title := r.content, notes := none })
    let url : DispatchedUrl :=
      { base := "things:///json", data := serializeItems items, reveal := toString true }
    { store := s
      events := [.lockAcquire, .dbSelect names, .spawn "open" url, .lockRelease]
      result := .ok () }

/-- The encoded `data` payload as a function of the exported contents alone:
one "to-do" item per content string, titles in list order, notes null. -/
def titlesPayload (contents : List String) : Json :=
  .arr (contents.map (fun c =>
    Json.obj [("type", .str "to-do"),
              ("attributes", .obj [("title", .str c), ("notes", .null)])]))

/-- Whether some spawn event of the trace occurs while the connection lock is
held, scanning the trace left to right with the current lock state. -/
def lockHeldAcrossSpawn : List Event → Bool → Bool
  | [], _ => false
  | Event.lockAcquire :: rest, _ => lockHeldAcrossSpawn rest true
  | Event.lockRelease :: rest, _ => lockHeldAcrossSpawn rest false
  | Event.spawn _ _ :: rest, held => held || lockHeldAcrossSpawn rest held
  | Event.dbSelect _ :: rest, held => lockHeldAcrossSpawn rest held

/-- The store operations whose sequences the uniqueness invariant quantifies
over: delete (`kill`), `merge`, and content update (`set_content`). -/
inductive Op where
  | kill : List String → Op
  | merge : List String → Op
  | setContent : String → String → Op

/-- Runs one operation on the store. -/
def runOp (op : Op) (s : Store) : Except String Store :=
  match op with
  | .kill names => .ok (kill names s)
  | .merge names => merge names s
  | .setContent name newContent => .ok (set_content name newContent s)

/-- Runs a sequence of operations, failing as soon as one fails. -/
def runOps (ops : List Op) (s : Store) : Except String Store :=
  match ops with
  | [] => .ok s
  | op :: rest => (runOp op s).bind (runOps rest)

/-- All live records have pairwise distinct names. -/
def NamesDistinct (s : Store) : Prop :=
  (s.map (fun r => r.name)).Nodup

instance : DecidablePred NamesDistinct := fun s =>
  inferInstanceAs (Decidable ((s.map (fun r : Row => r.name)).Nodup))

/-! ### The string comparison agrees with the lexicographic order -/

theorem charListLe_iff_le : ∀ as bs : List Char, charListLe as bs = true ↔ as ≤ bs
  | [], bs => by
    simp only [charListLe]
    exact iff_of_true trivial List.nil_le
  | a :: as, [] => by
    simp only [charListLe]
    exact iff_of_false (by simp) (not_le.mpr (List.nil_lt_cons a as))
  | a :: as, b :: bs => by
    rw [← not_lt]
    by_cases hab : a < b
    · simp only [charListLe, if_pos hab]
      refine iff_of_true trivial fun h => ?_
      cases h with
      | cons h => exact lt_irrefl _ hab
      | rel h => exact lt_asymm hab h
    · by_cases hba : b < a
      · simp only [charListLe, if_neg hab, if_pos hba]
        exact iff_of_false (by simp) fun hn => hn (List.Lex.rel hba)
      · have heq : a = b := le_antisymm (le_of_not_lt hba) (le_of_not_lt hab)
        subst heq
        simp only [charListLe, if_neg hab]
        rw [charListLe_iff_le as bs, ← not_lt]
        constructor
        · intro hle h
          cases h with
          | cons h => exact hle (show bs < as from h)
          | rel h => exact lt_irrefl _ h
        · intro h hlt
          exact h (List.Lex.cons hlt)

theorem strLe_iff_le (a b : String) : strLe a b = true ↔ a ≤ b := by
  rw [String.le_iff_toList_le]
  exact charListLe_iff_le a.data b.data

/-! ### Properties of the sort -/

theorem sortByName_perm (rows : List Row) : (sortByName rows).Perm rows :=
  List.perm_insertionSort _ rows

theorem sortByName_sorted (rows : List Row) :
    List.Sorted (fun a b : Row => a.name ≤ b.name) (sortByName rows) := by
  haveI : IsTotal Row (fun a b => strLe a.name b.name = true) :=
    ⟨fun a b => by
      rcases le_total a.name b.name with h | h
      · exact Or.inl ((strLe_iff_le _ _).mpr h)
      · exact Or.inr ((strLe_iff_le _ _).mpr h)⟩
  haveI : IsTrans Row (fun a b => strLe a.name b.name = true) :=
    ⟨fun _ _ _ hab hbc =>
      (strLe_iff_le _ _).mpr
        (le_trans ((strLe_iff_le _ _).mp hab) ((strLe_iff_le _ _).mp hbc))⟩
  exact (List.sorted_insertionSort _ rows).imp fun hab => (strLe_iff_le _ _).mp hab

/-! ### Helper lemmas about the store operations -/

theorem namesDistinct_filter (p : Row → Bool) {s : Store} (h : NamesDistinct s) :
    NamesDistinct (s.filter p) :=
  h.sublist ((List.filter_sublist s).map (fun r => r.name))

theorem map_name_set_content (name newContent : String) (s : Store) :
    (set_content name newContent s).map (fun r => r.name) = s.map (fun r => r.name) := by
  induction s with
  | nil => rfl
  | cons r rest ih =>
    simp only [set_content, List.map_cons] at ih ⊢
    rw [ih]
    by_cases h : r.name = name <;> simp [h]

theorem merge_ok_cases {names : List String} {s s' : Store}
    (h : merge names s = .ok s') :
    (names.length < 2 ∧ s' = s) ∨
      ((kill names s).any (fun q => q.name == (mergedRow (selectByNames names s)).name)
          = false
        ∧ s' = kill names s ++ [mergedRow (selectByNames names s)]) := by
  unfold merge insertRow at h
  dsimp only at h
  split at h
  · rename_i hlt
    exact Or.inl ⟨hlt, (Except.ok.inj h).symm⟩
  · split at h
    · exact absurd h (fun hc => Except.noConfusion hc)
    · rename_i hany
      exact Or.inr ⟨Bool.eq_false_iff.mpr hany, (Except.ok.inj h).symm⟩

theorem runOp_preserves_distinct {op : Op} {s t : Store}
    (hs : NamesDistinct s) (h : runOp op s = .ok t) : NamesDistinct t := by
  cases op with
  | kill names =>
    cases Except.ok.inj h
    exact namesDistinct_filter _ hs
  | setContent name newContent =>
    cases Except.ok.inj h
    unfold NamesDistinct
    rw [map_name_set_content]
    exact hs
  | merge names =>
    rcases merge_ok_cases h with ⟨_, rfl⟩ | ⟨hany, rfl⟩
    · exact hs
    · unfold NamesDistinct
      rw [List.map_append]
      refine List.nodup_append.mpr ⟨namesDistinct_filter _ hs, List.nodup_singleton _, ?_⟩
      intro a ha hb
      rcases List.mem_map.mp ha with ⟨q, hq, rfl⟩
      have : q.name ≠ (mergedRow (selectByNames names s)).name := by
        have := List.any_eq_false.mp hany q hq
        simpa using this
      simp only [List.map_cons, List.map_nil, List.mem_singleton] at hb
      exact this hb

/-! ### Claim theorems -/

/-- C9: For every store state, `load` returns all live records (a permutation
of the store contents) sorted by `name` in ascending lexicographic order,
regardless of the order in which the records were inserted. -/
theorem load_returns_all_sorted (s : Store) :
    List.Sorted (fun a b : Row => a.name ≤ b.name) (load s) ∧ (load s).Perm s :=
  ⟨sortByName_sorted s, sortByName_perm s⟩

/-- C3 counterexample: the claim extends the no-op guarantee to a list of 2
or more equal names, but `merge` only short-circuits on raw list length.
Merging the list with the name "a" twice against a store holding one record
named "a" with an absent label succeeds and replaces the record with one
whose label is "unknown", so the store changes. -/
theorem merge_pair_of_equal_names_changes_store :
    merge ["a", "a"] [⟨"a", "hello", none⟩] = .ok [⟨"a", "hello", some "unknown"⟩] ∧
      ([⟨"a", "hello", some "unknown"⟩] : Store) ≠ [⟨"a", "hello", none⟩] :=
  ⟨by decide, by decide⟩

/-- C3 (amended): a merge call whose name list has fewer than 2 entries
(duplicates counted, so this is raw list length, not distinct names) returns
success and leaves the store unchanged; a longer list of equal names is not
short-circuited. -/
theorem merge_short_list_noop (names : List String) (s : Store)
    (h : names.length < 2) : merge names s = .ok s := by
  unfold merge
  rw [if_pos h]

/-- Witness for the amended C3: merging a single name is a no-op. -/
theorem merge_short_list_noop_witness :
    merge ["a"] [⟨"a", "hello", none⟩] = .ok [⟨"a", "hello", none⟩] :=
  merge_short_list_noop ["a"] [⟨"a", "hello", none⟩] (by decide)

/-- C6: `add_to_things` never changes the store, whether it succeeds or
fails: the export path only reads. -/
theorem export_preserves_store (thingsInstalled : Bool) (names : List String)
    (s : Store) : (add_to_things thingsInstalled names s).store = s := by
  cases thingsInstalled <;> rfl

/-- C7: when the Things application is not detected, `add_to_things` fails
with the unavailability error and performs no further work: the store is
untouched and the effect trace is empty (no lock, no select, no spawn). -/
theorem export_unavailable_no_effects (names : List String) (s : Store) :
    add_to_things false names s =
      { store := s, events := [], result := .error thingsInstalledErr } :=
  rfl

/-- C8 counterexample: the claim says the connection lock is released before
the URL-scheme dispatch, but the `MutexGuard` is dropped only at the end of
the function, so on a concrete export the spawn occurs while the lock is
held: the trace is acquire, select, spawn, release. -/
theorem export_spawn_while_locked :
    lockHeldAcrossSpawn (add_to_things true ["a"] [⟨"a", "x", none⟩]).events false
        = true ∧
      (add_to_things true ["a"] [⟨"a", "x", none⟩]).events =
        [.lockAcquire, .dbSelect ["a"],
          .spawn "open"
            { base := "things:///json", data := titlesPayload ["x"], reveal := "true" },
          .lockRelease] :=
  ⟨rfl, rfl⟩

/-- C8 (amended): in every execution of the export operation that passes the
availability check, the lock is acquired before the store read and is still
held when the external `open` process is spawned; it is released only when
the operation returns, after the dispatch. -/
theorem export_holds_lock_across_spawn (names : List String) (s : Store) :
    lockHeldAcrossSpawn (add_to_things true names s).events false = true :=
  rfl

/-- C1: for every merge of at least 2 names matching at least one existing
record that completes successfully, the matching rows are selected in
ascending-name order, and the one inserted record has name equal to their
names joined with ",", content equal to their contents joined with a blank
line, and label equal to the first present label in that order that is not
"unknown", or "unknown" if none qualifies. -/
theorem merge_combined_record (names : List String) (s s' : Store)
    (h2 : 2 ≤ names.length) (hmatch : selectByNames names s ≠ [])
    (hok : merge names s = .ok s') :
    List.Sorted (fun a b : Row => a.name ≤ b.name) (selectByNames names s) ∧
      (selectByNames names s).Perm (s.filter (fun r => names.contains r.name)) ∧
      s' = kill names s ++
        [{ name := String.intercalate ","
             ((selectByNames names s).map (fun r => r.name))
           content := String.intercalate "\n\n"
             ((selectByNames names s).map (fun r => r.content))
           label := some ((((
             (selectByNames names s).map (fun r => r.label)).filterMap id).filter
               (fun l => l != "unknown")).headD "unknown") }] := by
  refine ⟨sortByName_sorted _, sortByName_perm _, ?_⟩
  rcases merge_ok_cases hok with ⟨hlt, rfl⟩ | ⟨_, rfl⟩
  · omega
  · rfl

/-- Witness for C1 at the spec's concrete example: merging "a" and "b" where
A has content "hello" and label "work" and B has content "world" and label
"unknown" inserts the record with name "a,b", content "hello\n\nworld" and
label "work". -/
theorem merge_combined_record_witness :
    ([⟨"a,b", "hello\n\nworld", some "work"⟩] : Store) =
      kill ["a", "b"] [⟨"a", "hello", some "work"⟩, ⟨"b", "world", some "unknown"⟩] ++
        [{ name := String.intercalate ","
             ((selectByNames ["a", "b"]
               [⟨"a", "hello", some "work"⟩, ⟨"b", "world", some "unknown"⟩]).map
                 (fun r => r.name))
           content := String.intercalate "\n\n"
             ((selectByNames ["a", "b"]
               [⟨"a", "hello", some "work"⟩, ⟨"b", "world", some "unknown"⟩]).map
                 (fun r => r.content))
           label := some (((((selectByNames ["a", "b"]
             [⟨"a", "hello", some "work"⟩, ⟨"b", "world", some "unknown"⟩]).map
               (fun r => r.label)).filterMap id).filter
                 (fun l => l != "unknown")).headD "unknown") }] :=
  (merge_combined_record ["a", "b"]
    [⟨"a", "hello", some "work"⟩, ⟨"b", "world", some "unknown"⟩]
    [⟨"a,b", "hello\n\nworld", some "work"⟩]
    (by decide) (by decide) (by decide)).2.2

/-- C2 counterexample: merging ["a", "nonexistent"] where only "a" exists is
not a no-op when the record's label is absent: the record is re-inserted
with label "unknown", so the store's record set changes. -/
theorem merge_skip_missing_changes_store :
    merge ["a", "nonexistent"] [⟨"a", "hello", none⟩]
        = .ok [⟨"a", "hello", some "unknown"⟩] ∧
      ([⟨"a", "hello", some "unknown"⟩] : Store) ≠ [⟨"a", "hello", none⟩] :=
  ⟨by decide, by decide⟩

/-- C2 (amended): a merge call with at least 2 requested names of which
exactly one record matches deletes that record and re-inserts a record with
the same name and content; the label is kept when present, but an absent
label becomes "unknown".  The store is therefore unchanged as a record set
only when the matching record already carried a label. -/
theorem merge_single_match (names : List String) (s : Store) (r : Row)
    (h2 : 2 ≤ names.length) (hone : selectByNames names s = [r]) :
    merge names s = .ok (kill names s ++
      [{ name := r.name, content := r.content,
         label := some (match r.label with
           | some l => if l == "unknown" then "unknown" else l
           | none => "unknown") }]) := by
  have hfil : s.filter (fun q => names.contains q.name) = [r] := by
    refine List.perm_singleton.mp ?_
    have hp := sortByName_perm (s.filter (fun q => names.contains q.name))
    rw [show sortByName (s.filter (fun q => names.contains q.name))
          = selectByNames names s from rfl, hone] at hp
    exact hp.symm
  have hrcont : names.contains r.name = true := by
    have hrmem : r ∈ s.filter (fun q => names.contains q.name) := by
      rw [hfil]; exact List.mem_singleton_self r
    exact (List.mem_filter.mp hrmem).2
  have hmr : mergedRow [r] =
      { name := r.name, content := r.content,
        label := some (match r.label with
          | some l => if l == "unknown" then "unknown" else l
          | none => "unknown") } := by
    cases hl : r.label with
    | none => simp [mergedRow, String.intercalate, String.intercalate.go, hl]
    | some l =>
      rcases eq_or_ne l "unknown" with rfl | hne
      · simp [mergedRow, String.intercalate, String.intercalate.go, hl]
      · simp [mergedRow, String.intercalate, String.intercalate.go, hl, hne]
  have hany : (kill names s).any (fun q => q.name == r.name) = false := by
    rw [List.any_eq_false]
    intro q hq
    have hqk := List.mem_filter.mp hq
    intro hbe
    have hqr : q.name = r.name := by simpa using hbe
    have hcont : names.contains q.name = true := hqr ▸ hrcont
    have hmem : q.name ∈ names := by simpa using hcont
    have hnot : q.name ∉ names := by simpa using hqk.2
    exact hnot hmem
  unfold merge
  rw [if_neg (by omega)]
  dsimp only
  rw [hone, hmr]
  simp only [insertRow]
  rw [if_neg]
  simp [hany]

/-- Witness for the amended C2: merging ["a", "nonexistent"] where the one
matching record carries the label "work" re-inserts it with the same name,
content and label. -/
theorem merge_single_match_witness :
    merge ["a", "nonexistent"] [⟨"a", "hello", some "work"⟩] =
      .ok (kill ["a", "nonexistent"] [⟨"a", "hello", some "work"⟩] ++
        [{ name := "a", content := "hello",
           label := some (match some "work" with
             | some l => if l == "unknown" then "unknown" else l
             | none => "unknown") }]) :=
  merge_single_match ["a", "nonexistent"] [⟨"a", "hello", some "work"⟩]
    ⟨"a", "hello", some "work"⟩ (by decide) (by decide)

/-- C4: name uniqueness is an invariant: from any store whose record names
are pairwise distinct, any sequence of `kill`, `merge` and `set_content`
operations that completes successfully leaves a store whose record names
are pairwise distinct (merge deletes all selected rows before inserting the
combined row, and the insert rejects a lingering duplicate). -/
theorem names_unique_invariant (ops : List Op) (s s' : Store)
    (hs : NamesDistinct s) (hrun : runOps ops s = .ok s') : NamesDistinct s' := by
  induction ops generalizing s with
  | nil =>
    cases Except.ok.inj hrun
    exact hs
  | cons op rest ih =>
    unfold runOps at hrun
    cases hop : runOp op s with
    | error e =>
      rw [hop] at hrun
      simp only [Except.bind] at hrun
      exact absurd hrun (fun hc => Except.noConfusion hc)
    | ok t =>
      rw [hop] at hrun
      simp only [Except.bind] at hrun
      exact ih t (runOp_preserves_distinct hs hop) hrun

/-- Witness for C4: one merge on a two-record store with distinct names
yields a store with distinct names. -/
theorem names_unique_invariant_witness :
    NamesDistinct [⟨"a,b", "x\n\ny", some "work"⟩] :=
  names_unique_invariant [.merge ["a", "b"]]
    [⟨"a", "x", none⟩, ⟨"b", "y", some "work"⟩]
    [⟨"a,b", "x\n\ny", some "work"⟩] (by decide) (by decide)

/-- C10: a merge call with at least 2 names, none matching any record, is
not a no-op: it inserts a record with empty name, empty content and label
"unknown", or fails with the duplicate-name error if a record named "" is
already present. -/
theorem merge_no_matches (names : List String) (s : Store)
    (h2 : 2 ≤ names.length) (hnone : ∀ r ∈ s, names.contains r.name = false) :
    merge names s =
      if s.any (fun q => q.name == "") then .error dupErr
      else .ok (s ++ [{ name := "", content := "", label := some "unknown" }]) := by
  have hfil : s.filter (fun q => names.contains q.name) = [] :=
    List.filter_eq_nil_iff.mpr (fun r hr => by simpa using hnone r hr)
  have hsel : selectByNames names s = [] := by
    unfold selectByNames
    rw [hfil]
    rfl
  have hkill : kill names s = s :=
    List.filter_eq_self.mpr (fun r hr => by simpa using hnone r hr)
  unfold merge
  rw [if_neg (by omega)]
  dsimp only
  rw [hsel, hkill]
  rfl

/-- Witness for C10: merging two names absent from a one-record store
appends the empty-named record. -/
theorem merge_no_matches_witness :
    merge ["x", "y"] [⟨"a", "c", none⟩] =
      if ([⟨"a", "c", none⟩] : Store).any (fun q => q.name == "") then .error dupErr
      else .ok ([⟨"a", "c", none⟩] ++
        [{ name := "", content := "", label := some "unknown" }]) :=
  merge_no_matches ["x", "y"] [⟨"a", "c", none⟩] (by decide) (by decide)

/-- C5: a successful export maps each matching record (in ascending-name
order) to exactly one task item serialized with type "to-do" and attributes
holding the record's content as title and null notes; the dispatched URL
carries that JSON array as its data parameter and a reveal parameter equal
to "true".  The payload is a function of the selected records' contents
alone, so names and labels appear nowhere in it. -/
theorem export_payload_shape (names : List String) (s : Store) :
    (add_to_things true names s).events =
      [.lockAcquire, .dbSelect names,
        .spawn "open"
          { base := "things:///json"
            data := titlesPayload ((selectByNames names s).map (fun r => r.content))
            reveal := "true" },
        .lockRelease] ∧
      List.Sorted (fun a b : Row => a.name ≤ b.name) (selectByNames names s) := by
  refine ⟨?_, sortByName_sorted _⟩
  unfold add_to_things
  dsimp only
  simp only [serializeItems, titlesPayload, List.map_map]
  rfl

end Memos
